import Mathlib

/-!
Shallow embedding of the SDS dynamic-string library of redis-3.0-annotated
(src/src/sds.h).  The header file defines the layout (`struct sdshdr`), the
preallocation cap `SDS_MAX_PREALLOC`, and the two inline metadata queries
`sdslen` and `sdsavail`; the bodies of the remaining operations live in sds.c,
which is not among the sources, so those operations are modelled from the
spec (each such definition says so in its doc comment).
-/

namespace SDS

/-- Upper bound on preallocated headroom, `#define SDS_MAX_PREALLOC (1024*1024)`
(src/src/sds.h line 47). -/
def SDS_MAX_PREALLOC : Nat := 1024 * 1024

/-! ### Header-level model (code in src/src/sds.h)

`struct sdshdr` stores `int len; int free; char buf[];`.  The `int` fields are
32-bit signed; the public queries return `size_t` (64-bit unsigned), so the C
code performs an implicit signed-to-unsigned conversion modulo 2^64. -/

/-- Embedding of `struct sdshdr` (src/src/sds.h lines 57-71): `len` and `free`
are C `int` fields, modelled as `Int` together with the 32-bit range predicate
`intOK`; `buf` is the flexible byte array placed immediately after the two
metadata fields. -/
structure sdshdr where
  len : Int
  free : Int
  buf : List UInt8

/-- Range of a 32-bit signed C `int`. -/
def intOK (n : Int) : Prop := -(2 ^ 31) ≤ n ∧ n ≤ 2 ^ 31 - 1

instance (n : Int) : Decidable (intOK n) := by unfold intOK; infer_instance

/-- C conversion of a signed value to `size_t` on a 64-bit platform:
reduction modulo 2^64. -/
def toSizeT (n : Int) : Nat := (n % 2 ^ 64).toNat

/-- Embedding of `sdslen` (src/src/sds.h lines 78-88): recovers the header from
the payload pointer and returns the stored `len` field, converted to `size_t`.
No payload byte is inspected. -/
def sdslen (sh : sdshdr) : Nat := toSizeT sh.len

/-- Embedding of `sdsavail` (src/src/sds.h lines 94-97): returns the stored
`free` field, converted to `size_t`.  No payload byte is inspected. -/
def sdsavail (sh : sdshdr) : Nat := toSizeT sh.free

/-! ### Buffer model for the operations (bodies in sds.c, not in src/)

A `Buffer` is the spec's sole entity: `len` meaningful bytes, `free` spare
bytes, and `buf` the whole payload allocation (data, terminator, spare). -/

/-- The spec's Buffer: `len` = count of meaningful bytes, `free` = spare
capacity, `buf` = the payload allocation itself. -/
structure Buffer where
  len : Nat
  free : Nat
  buf : List UInt8
  deriving DecidableEq, Repr

/-- The meaningful content of a buffer: its first `len` payload bytes. -/
def dataOf (s : Buffer) : List UInt8 := s.buf.take s.len

/-- Well-formedness: invariant I1 (payload allocation size = `len + free + 1`)
together with invariant I2 (the byte at offset `len` is the zero terminator). -/
def wf (s : Buffer) : Prop :=
  s.buf.length = s.len + s.free + 1 ∧ s.buf[s.len]? = some 0

instance (s : Buffer) : Decidable (wf s) := by unfold wf; infer_instance

/-- Modelled from the spec: `sdsAllocSize` is declared at src/src/sds.h line 144
but defined in sds.c, which is missing.  Invariant I1 speaks of the payload
allocation size, which in this model is the length of `buf`. -/
def sdsAllocSize (s : Buffer) : Nat := s.buf.length

/-- Write `data` into the allocation `buf` starting at offset `off`, keeping
the bytes around it: the model of `memcpy(buf + off, data, n)`. -/
def storeBytes (buf : List UInt8) (off : Nat) (data : List UInt8) : List UInt8 :=
  buf.take off ++ data ++ buf.drop (off + data.length)

/-- Modelled from the spec: `sdsnewlen` (declared at src/src/sds.h line 102,
body in the missing sds.c).  §4.1: allocates header+payload+terminator sized
exactly to `length` (capacity = 0), copies the bytes in, writes the
terminator. -/
def sdsnewlen (init : List UInt8) : Buffer :=
  { len := init.length, free := 0, buf := init ++ [0] }

/-- Modelled from the spec: `sdsempty` (declared at src/src/sds.h line 104,
body in the missing sds.c).  §4.1: zero-length buffer with zero capacity,
terminator present. -/
def sdsempty : Buffer := sdsnewlen []

/-- Modelled from the spec: `sdsMakeRoomFor` (declared at src/src/sds.h line
141, body in the missing sds.c).  §4.2: if the current capacity satisfies the
request, return unchanged; otherwise let `newlen = len + addlen`, allocate a
payload of `2 * newlen` bytes when `newlen < SDS_MAX_PREALLOC` and of
`newlen + SDS_MAX_PREALLOC` bytes otherwise (plus the terminator byte), and
preserve the existing content.  The new `free` field is the allocated payload
size minus the (unchanged) `len`: this is the only reading under which the
spec's own guarantee `capacity ≥ additionalLength` (§4.2) and invariant I1
hold.  Bytes of the enlarged allocation beyond the old one are modelled as
zero (the C code leaves them unspecified; no claim depends on them). -/
def sdsMakeRoomFor (s : Buffer) (addlen : Nat) : Buffer :=
  if addlen ≤ s.free then s
  else
    let newlen := s.len + addlen
    let alloc := if newlen < SDS_MAX_PREALLOC then 2 * newlen else newlen + SDS_MAX_PREALLOC
    { len := s.len
      free := alloc - s.len
      buf := s.buf ++ List.replicate (alloc + 1 - s.buf.length) 0 }

/-- Modelled from the spec: `sdscatlen` (declared at src/src/sds.h line 110,
body in the missing sds.c).  §4.3: ensure capacity for `t.length` more bytes,
copy `t` past the current length, increment `len`, decrease `free`
correspondingly, re-terminate. -/
def sdscatlen (s : Buffer) (t : List UInt8) : Buffer :=
  let s' := sdsMakeRoomFor s t.length
  { len := s'.len + t.length
    free := s'.free - t.length
    buf := storeBytes s'.buf s'.len (t ++ [0]) }

/-- Modelled from the spec: `sdscpylen` (declared at src/src/sds.h line 113,
body in the missing sds.c).  §4.3 `copyFrom`: if the total allocation cannot
hold `t`, grow first; set `len` to `t.length`, copy from offset 0,
re-terminate; capacity beyond the new length is preserved, not freed. -/
def sdscpylen (s : Buffer) (t : List UInt8) : Buffer :=
  let s' := if s.free + s.len < t.length then sdsMakeRoomFor s (t.length - s.len) else s
  { len := t.length
    free := s'.free + s'.len - t.length
    buf := storeBytes s'.buf 0 (t ++ [0]) }

/-- Modelled from the spec: `sdstrim` (declared at src/src/sds.h line 125, body
in the missing sds.c).  §4.3: remove leading and trailing bytes present in
`cset`, shift the retained span to offset 0, decrease `len`, increase `free`
by the removed amount, re-terminate; no reallocation. -/
def sdstrim (s : Buffer) (cset : List UInt8) : Buffer :=
  let kept :=
    ((((s.buf.take s.len).dropWhile (fun c => cset.contains c)).reverse.dropWhile
      (fun c => cset.contains c)).reverse)
  { len := kept.length
    free := s.free + (s.len - kept.length)
    buf := storeBytes s.buf 0 (kept ++ [0]) }

/-- Index normalization of `sdsrange` (§4.3 of the spec): resolve negative
indices from the end (−1 is the last byte), clamp out-of-range indices, and
return the start offset together with the retained length (0 when
`start > en` after normalization). -/
def rangeNorm (len : Nat) (start en : Int) : Nat × Nat :=
  let L : Int := len
  let st0 := if start < 0 then L + start else start
  let st := if st0 < 0 then 0 else st0
  let e0 := if en < 0 then L + en else en
  let e1 := if e0 < 0 then 0 else e0
  let e := if L - 1 < e1 then L - 1 else e1
  if e < st then (st.toNat, 0) else (st.toNat, (e - st + 1).toNat)

/-- Modelled from the spec: `sdsrange` (declared at src/src/sds.h line 126,
body in the missing sds.c).  §4.3 `setRange`: in-place slice to
`[start, en]` inclusive; a negative index counts from the end (−1 is the last
byte); out-of-range indices are clamped; the result is empty when
`start > en` after normalization; retained bytes are shifted to offset 0;
never signals an error. -/
def sdsrange (s : Buffer) (start en : Int) : Buffer :=
  if s.len = 0 then s
  else
    let n := rangeNorm s.len start en
    let slice := ((s.buf.take s.len).drop n.1).take n.2
    { len := n.2
      free := s.free + (s.len - n.2)
      buf := storeBytes s.buf 0 (slice ++ [0]) }

/-- Modelled from the spec: `sdsgrowzero` (declared at src/src/sds.h line 109,
body in the missing sds.c).  §4.2: if `target ≤ len`, no-op; otherwise extend
via `sdsMakeRoomFor`, zero-fill the gap between the old length and `target`
(and the new terminator), update `len`, adjust `free`. -/
def sdsgrowzero (s : Buffer) (target : Nat) : Buffer :=
  if target ≤ s.len then s
  else
    let s' := sdsMakeRoomFor s (target - s.len)
    { len := target
      free := s'.len + s'.free - target
      buf := storeBytes s'.buf s.len (List.replicate (target - s.len + 1) 0) }

/-- Modelled from the spec: `sdsclear` (declared at src/src/sds.h line 128,
body in the missing sds.c).  §4.3: set `len = 0` without reallocation, all
prior payload becomes available capacity, terminator rewritten at offset 0. -/
def sdsclear (s : Buffer) : Buffer :=
  { len := 0
    free := s.free + s.len
    buf := storeBytes s.buf 0 [0] }

/-- Modelled from the spec: `sdsRemoveFreeSpace` (declared at src/src/sds.h
line 143, body in the missing sds.c).  §4.2 `shrinkToFit`: reallocate so that
`capacity = 0`, keeping the content and the terminator. -/
def sdsRemoveFreeSpace (s : Buffer) : Buffer :=
  { len := s.len, free := 0, buf := s.buf.take s.len ++ [0] }

/-- Model of C `memcmp` over two byte lists of equal length: 0 if equal,
otherwise the difference of the first differing pair of bytes. -/
def memcmp : List UInt8 → List UInt8 → Int
  | [], [] => 0
  | a :: as, b :: bs => if a = b then memcmp as bs else (a.toNat : Int) - (b.toNat : Int)
  | _, _ => 0

/-- Modelled from the spec: `sdscmp` (declared at src/src/sds.h line 129, body
in the missing sds.c).  §4.3 `compare`: lexicographic byte comparison over the
shorter-length prefix, tie-broken by length (shorter-but-equal sorts
first). -/
def sdscmp (a b : Buffer) : Int :=
  let minlen := min a.len b.len
  let c := memcmp ((dataOf a).take minlen) ((dataOf b).take minlen)
  if c = 0 then (a.len : Int) - (b.len : Int) else c

/-- Three-way lexicographic comparison of byte lists, written from the spec's
words for `compare` (§4.3): compare byte by byte; at the first difference the
smaller byte sorts first; if one list is exhausted the shorter sorts first;
equal lists compare equal.  Used to check that `sdscmp` refines it. -/
def lexCompare : List UInt8 → List UInt8 → Int
  | [], [] => 0
  | [], _ :: _ => -1
  | _ :: _, [] => 1
  | a :: as, b :: bs =>
    if a < b then -1 else if b < a then 1 else lexCompare as bs

/-! ### Helper lemmas -/

theorem storeBytes_length {buf data : List UInt8} {off : Nat}
    (h : off + data.length ≤ buf.length) :
    (storeBytes buf off data).length = buf.length := by
  simp only [storeBytes, List.length_append, List.length_take, List.length_drop]
  omega

theorem length_take_of_le {l : List UInt8} {n : Nat} (h : n ≤ l.length) :
    (l.take n).length = n := by
  simp only [List.length_take]
  omega

theorem storeBytes_take {buf data : List UInt8} {off k : Nat}
    (hoff : off ≤ buf.length) (hk : k ≤ data.length) :
    (storeBytes buf off data).take (off + k) = buf.take off ++ data.take k := by
  unfold storeBytes
  have hl : (buf.take off).length = off := length_take_of_le hoff
  rw [List.take_append_of_le_length
      (by rw [List.length_append, hl]; omega),
    List.take_append_eq_append_take, hl, Nat.add_sub_cancel_left,
    List.take_of_length_le (by rw [hl]; omega)]

theorem storeBytes_getElem {buf data : List UInt8} {off i : Nat}
    (hoff : off ≤ buf.length) (hi : i < data.length) :
    (storeBytes buf off data)[off + i]? = data[i]? := by
  unfold storeBytes
  have hl : (buf.take off).length = off := length_take_of_le hoff
  rw [List.getElem?_append,
    if_pos (by rw [List.length_append, hl]; omega),
    List.getElem?_append, if_neg (by rw [hl]; omega),
    hl, Nat.add_sub_cancel_left]

theorem dataOf_length {s : Buffer} (h : wf s) : (dataOf s).length = s.len := by
  have := h.1
  simp only [dataOf, List.length_take]
  omega

theorem len_sdsMakeRoomFor (s : Buffer) (addlen : Nat) :
    (sdsMakeRoomFor s addlen).len = s.len := by
  unfold sdsMakeRoomFor
  split <;> rfl

theorem avail_sdsMakeRoomFor (s : Buffer) (addlen : Nat) :
    addlen ≤ (sdsMakeRoomFor s addlen).free := by
  unfold sdsMakeRoomFor
  split
  · assumption
  · simp only [SDS_MAX_PREALLOC]
    split <;> omega

theorem buf_length_sdsMakeRoomFor {s : Buffer} (h : wf s) (addlen : Nat) :
    (sdsMakeRoomFor s addlen).buf.length =
      (sdsMakeRoomFor s addlen).len + (sdsMakeRoomFor s addlen).free + 1 := by
  have h1 := h.1
  unfold sdsMakeRoomFor
  split
  · exact h.1
  · simp only [List.length_append, List.length_replicate, SDS_MAX_PREALLOC]
    split <;> omega

theorem wf_sdsMakeRoomFor {s : Buffer} (h : wf s) (addlen : Nat) :
    wf (sdsMakeRoomFor s addlen) := by
  refine ⟨buf_length_sdsMakeRoomFor h addlen, ?_⟩
  have h1 := h.1
  have h2 := h.2
  unfold sdsMakeRoomFor
  split
  · exact h2
  · simp only
    rw [List.getElem?_append, if_pos (by omega)]
    exact h2

theorem dataOf_sdsMakeRoomFor {s : Buffer} (h : wf s) (addlen : Nat) :
    dataOf (sdsMakeRoomFor s addlen) = dataOf s := by
  have h1 := h.1
  unfold dataOf sdsMakeRoomFor
  split
  · rfl
  · simp only
    rw [List.take_append_of_le_length (by omega)]

theorem getElem_concat_len (d : List UInt8) : (d ++ [(0 : UInt8)])[d.length]? = some 0 := by
  rw [List.getElem?_append, if_neg (by omega), Nat.sub_self]
  rfl

theorem wf_mk_store0 {s' : Buffer} (d : List UInt8) {L F : Nat}
    (hL : L = d.length) (hsum : L + F + 1 = s'.buf.length) :
    wf ⟨L, F, storeBytes s'.buf 0 (d ++ [0])⟩ := by
  have hd : (d ++ [(0 : UInt8)]).length = d.length + 1 := by
    simp
  have hfit : 0 + (d ++ [(0 : UInt8)]).length ≤ s'.buf.length := by
    rw [hd]
    omega
  constructor
  · show (storeBytes s'.buf 0 (d ++ [0])).length = L + F + 1
    rw [storeBytes_length hfit]
    omega
  · show (storeBytes s'.buf 0 (d ++ [0]))[L]? = some 0
    have hg := @storeBytes_getElem s'.buf (d ++ [0]) 0 d.length
      (by omega) (by rw [hd]; omega)
    rw [Nat.zero_add] at hg
    rw [hL, hg, getElem_concat_len]

theorem wf_sdsnewlen (init : List UInt8) : wf (sdsnewlen init) := by
  constructor
  · simp [sdsnewlen]
  · show (init ++ [0])[init.length]? = some 0
    exact getElem_concat_len init

theorem wf_sdscatlen {s : Buffer} (h : wf s) (t : List UInt8) : wf (sdscatlen s t) := by
  have h' := wf_sdsMakeRoomFor h t.length
  have hav := avail_sdsMakeRoomFor s t.length
  have h1 := h'.1
  have ht : (t ++ [(0 : UInt8)]).length = t.length + 1 := by
    simp
  have hfit : (sdsMakeRoomFor s t.length).len + (t ++ [(0 : UInt8)]).length ≤
      (sdsMakeRoomFor s t.length).buf.length := by
    rw [ht]
    omega
  constructor
  · show (storeBytes (sdsMakeRoomFor s t.length).buf (sdsMakeRoomFor s t.length).len
      (t ++ [0])).length =
      ((sdsMakeRoomFor s t.length).len + t.length) + ((sdsMakeRoomFor s t.length).free - t.length) + 1
    rw [storeBytes_length hfit]
    omega
  · show (storeBytes (sdsMakeRoomFor s t.length).buf (sdsMakeRoomFor s t.length).len
      (t ++ [0]))[(sdsMakeRoomFor s t.length).len + t.length]? = some 0
    have hg := @storeBytes_getElem (sdsMakeRoomFor s t.length).buf (t ++ [0])
      (sdsMakeRoomFor s t.length).len t.length (by omega) (by rw [ht]; omega)
    rw [hg, getElem_concat_len]

theorem wf_sdscpylen {s : Buffer} (h : wf s) (t : List UInt8) : wf (sdscpylen s t) := by
  unfold sdscpylen
  simp only
  split
  · rename_i hlt
    have h' := wf_sdsMakeRoomFor h (t.length - s.len)
    have hav := avail_sdsMakeRoomFor s (t.length - s.len)
    have hlen := len_sdsMakeRoomFor s (t.length - s.len)
    exact wf_mk_store0 t rfl (by have := h'.1; omega)
  · rename_i hge
    exact wf_mk_store0 t rfl (by have := h.1; omega)

theorem wf_sdsclear {s : Buffer} (h : wf s) : wf (sdsclear s) := by
  have h1 := h.1
  exact wf_mk_store0 [] rfl (by omega)

theorem wf_sdsRemoveFreeSpace {s : Buffer} (h : wf s) : wf (sdsRemoveFreeSpace s) := by
  have h1 := h.1
  constructor
  · show (s.buf.take s.len ++ [0]).length = s.len + 0 + 1
    rw [List.length_append, length_take_of_le (by omega)]
    rfl
  · show (s.buf.take s.len ++ [0])[s.len]? = some 0
    have := getElem_concat_len (s.buf.take s.len)
    rwa [length_take_of_le (by omega)] at this

theorem trimmed_length_le (p : UInt8 → Bool) (l : List UInt8) :
    (((l.dropWhile p).reverse.dropWhile p).reverse).length ≤ l.length := by
  rw [List.length_reverse]
  calc ((l.dropWhile p).reverse.dropWhile p).length
      ≤ (l.dropWhile p).reverse.length := (List.dropWhile_sublist p).length_le
    _ = (l.dropWhile p).length := List.length_reverse _
    _ ≤ l.length := (List.dropWhile_sublist p).length_le

theorem wf_sdstrim {s : Buffer} (h : wf s) (cset : List UInt8) : wf (sdstrim s cset) := by
  have h1 := h.1
  have hk : ((((s.buf.take s.len).dropWhile (fun c => cset.contains c)).reverse.dropWhile
      (fun c => cset.contains c)).reverse).length ≤ s.len := by
    refine le_trans (trimmed_length_le _ _) ?_
    rw [List.length_take]
    omega
  unfold sdstrim
  exact wf_mk_store0 _ rfl (by omega)

theorem rangeNorm_bound (len : Nat) (a b : Int) :
    (rangeNorm len a b).2 = 0 ∨ (rangeNorm len a b).1 + (rangeNorm len a b).2 ≤ len := by
  simp only [rangeNorm]
  split_ifs <;> simp <;> omega

theorem rangeNorm_full (len : Nat) : rangeNorm len 0 (-1) = (0, len) := by
  simp only [rangeNorm]
  split_ifs <;> simp_all

theorem rangeNorm_pos_empty (len : Nat) (a b : Int) (ha : 0 ≤ a) (hb : 0 ≤ b)
    (hab : b < a) : (rangeNorm len a b).2 = 0 := by
  simp only [rangeNorm]
  split_ifs <;> simp <;> omega

theorem wf_sdsrange {s : Buffer} (h : wf s) (start en : Int) : wf (sdsrange s start en) := by
  have h1 := h.1
  unfold sdsrange
  split
  · exact h
  · have hb := rangeNorm_bound s.len start en
    have hslice : (((s.buf.take s.len).drop (rangeNorm s.len start en).1).take
        (rangeNorm s.len start en).2).length = (rangeNorm s.len start en).2 := by
      rw [List.length_take, List.length_drop, List.length_take]
      rcases hb with h0 | hb <;> omega
    have hn2 : (rangeNorm s.len start en).2 ≤ s.len := by
      rcases hb with h0 | hb <;> omega
    exact wf_mk_store0 _ hslice.symm (by omega)

theorem wf_sdsgrowzero {s : Buffer} (h : wf s) (target : Nat) : wf (sdsgrowzero s target) := by
  unfold sdsgrowzero
  split
  · exact h
  · rename_i hgt
    have h' := wf_sdsMakeRoomFor h (target - s.len)
    have hav := avail_sdsMakeRoomFor s (target - s.len)
    have hlen := len_sdsMakeRoomFor s (target - s.len)
    have h1 := h'.1
    have hrep : (List.replicate (target - s.len + 1) (0 : UInt8)).length = target - s.len + 1 :=
      List.length_replicate _ _
    have hfit : s.len + (List.replicate (target - s.len + 1) (0 : UInt8)).length ≤
        (sdsMakeRoomFor s (target - s.len)).buf.length := by
      rw [hrep]
      omega
    constructor
    · show (storeBytes (sdsMakeRoomFor s (target - s.len)).buf s.len
        (List.replicate (target - s.len + 1) 0)).length =
        target + ((sdsMakeRoomFor s (target - s.len)).len +
          (sdsMakeRoomFor s (target - s.len)).free - target) + 1
      rw [storeBytes_length hfit]
      omega
    · show (storeBytes (sdsMakeRoomFor s (target - s.len)).buf s.len
        (List.replicate (target - s.len + 1) 0))[target]? = some 0
      have hg := @storeBytes_getElem (sdsMakeRoomFor s (target - s.len)).buf
        (List.replicate (target - s.len + 1) 0) s.len (target - s.len)
        (by omega) (by rw [hrep]; omega)
      have he : s.len + (target - s.len) = target := by omega
      rw [he] at hg
      rw [hg, List.getElem?_replicate, if_pos (by omega)]

theorem len_sdscatlen (s : Buffer) (t : List UInt8) :
    (sdscatlen s t).len = s.len + t.length := by
  unfold sdscatlen
  simp only
  rw [len_sdsMakeRoomFor]

theorem free_sdscatlen (s : Buffer) (t : List UInt8) :
    (sdscatlen s t).free = (sdsMakeRoomFor s t.length).free - t.length := rfl

theorem dataOf_sdscatlen {s : Buffer} (h : wf s) (t : List UInt8) :
    dataOf (sdscatlen s t) = dataOf s ++ t := by
  have h' := wf_sdsMakeRoomFor h t.length
  have hav := avail_sdsMakeRoomFor s t.length
  have h1 := h'.1
  unfold sdscatlen dataOf
  simp only
  have hst := @storeBytes_take (sdsMakeRoomFor s t.length).buf (t ++ [0])
    (sdsMakeRoomFor s t.length).len t.length (by omega) (by simp)
  rw [hst, List.take_append_of_le_length (le_refl _), List.take_length]
  congr 1
  have hd := dataOf_sdsMakeRoomFor h t.length
  unfold dataOf at hd
  exact hd

theorem len_sdsgrowzero {s : Buffer} {target : Nat} (hgt : s.len < target) :
    (sdsgrowzero s target).len = target := by
  unfold sdsgrowzero
  rw [if_neg (by omega)]

theorem dataOf_sdsgrowzero {s : Buffer} (h : wf s) {target : Nat} (hgt : s.len < target) :
    dataOf (sdsgrowzero s target) = dataOf s ++ List.replicate (target - s.len) 0 := by
  have h' := wf_sdsMakeRoomFor h (target - s.len)
  have hav := avail_sdsMakeRoomFor s (target - s.len)
  have hlen := len_sdsMakeRoomFor s (target - s.len)
  have h1 := h'.1
  have he : s.len + (target - s.len) = target := by omega
  unfold sdsgrowzero
  rw [if_neg (by omega)]
  unfold dataOf
  simp only
  have hst := @storeBytes_take (sdsMakeRoomFor s (target - s.len)).buf
    (List.replicate (target - s.len + 1) 0) s.len (target - s.len)
    (by omega) (by rw [List.length_replicate]; omega)
  rw [he] at hst
  rw [hst, List.take_replicate, Nat.min_eq_left (by omega)]
  congr 1
  have hd := dataOf_sdsMakeRoomFor h (target - s.len)
  unfold dataOf at hd
  rw [hlen] at hd
  exact hd

theorem take_succ_restore {l : List UInt8} {n : Nat} (h : l[n]? = some 0) :
    (l.take n ++ [0]) ++ l.drop (n + 1) = l := by
  have hn : n < l.length := by
    by_contra hge
    rw [List.getElem?_eq_none (by omega)] at h
    cases h
  have ha : l[n] = 0 := by
    rw [List.getElem?_eq_getElem hn] at h
    exact Option.some.inj h
  rw [List.append_assoc, List.singleton_append, ← ha, List.getElem_cons_drop,
    List.take_append_drop]

theorem sdsrange_full {s : Buffer} (h : wf s) : sdsrange s 0 (-1) = s := by
  obtain ⟨h1, h2⟩ := h
  unfold sdsrange
  split
  · rfl
  · rename_i hne
    have hlen : (s.buf.take s.len).length = s.len := length_take_of_le (by omega)
    simp only [rangeNorm_full, storeBytes, List.drop_zero, List.take_take, min_self,
      List.take_zero, List.nil_append, List.length_append, hlen, List.length_cons,
      List.length_nil, Nat.zero_add, Nat.sub_self, Nat.add_zero]
    have hb : (s.buf.take s.len ++ [0]) ++ s.buf.drop (s.len + 1) = s.buf :=
      take_succ_restore h2
    cases s with
    | mk len free buf =>
      simp only at hb ⊢
      rw [hb]

theorem dataOf_sdsrange {s : Buffer} (h : wf s) (a b : Int) :
    dataOf (sdsrange s a b) =
      ((dataOf s).drop (rangeNorm s.len a b).1).take (rangeNorm s.len a b).2 := by
  have h1 := h.1
  unfold sdsrange
  split
  · rename_i h0
    unfold dataOf
    rw [h0]
    simp
  · have hb := rangeNorm_bound s.len a b
    have hslice : (((s.buf.take s.len).drop (rangeNorm s.len a b).1).take
        (rangeNorm s.len a b).2).length = (rangeNorm s.len a b).2 := by
      rw [List.length_take, List.length_drop, List.length_take]
      rcases hb with h0 | hbb <;> omega
    unfold dataOf
    simp only
    have hst := @storeBytes_take s.buf
      (((s.buf.take s.len).drop (rangeNorm s.len a b).1).take (rangeNorm s.len a b).2
        ++ [0])
      0 (rangeNorm s.len a b).2 (by omega)
      (by rw [List.length_append, hslice]; simp)
    rw [Nat.zero_add] at hst
    rw [hst, List.take_zero, List.nil_append,
      List.take_append_of_le_length (by rw [hslice]),
      List.take_of_length_le (by rw [hslice])]

theorem len_sdsrange_le (s : Buffer) (a b : Int) : (sdsrange s a b).len ≤ s.len := by
  unfold sdsrange
  split
  · exact le_refl _
  · have hb := rangeNorm_bound s.len a b
    simp only
    rcases hb with h0 | hbb
    · rw [h0]
      omega
    · omega

/-- The comparison of `sdscmp` expressed on bare byte lists: compare the
`min`-length prefixes with `memcmp` and break ties by length. -/
def cmpBytes (xs ys : List UInt8) : Int :=
  let minlen := min xs.length ys.length
  let c := memcmp (xs.take minlen) (ys.take minlen)
  if c = 0 then (xs.length : Int) - (ys.length : Int) else c

theorem memcmp_self : ∀ l : List UInt8, memcmp l l = 0
  | [] => rfl
  | a :: as => by
    unfold memcmp
    rw [if_pos rfl]
    exact memcmp_self as

theorem sdscmp_eq_cmpBytes {a b : Buffer} (ha : wf a) (hb : wf b) :
    sdscmp a b = cmpBytes (dataOf a) (dataOf b) := by
  unfold sdscmp cmpBytes
  rw [dataOf_length ha, dataOf_length hb]

theorem cmpBytes_sign : ∀ xs ys : List UInt8, (cmpBytes xs ys).sign = lexCompare xs ys := by
  intro xs
  induction xs with
  | nil =>
    intro ys
    cases ys with
    | nil => rfl
    | cons b bs =>
      show (cmpBytes [] (b :: bs)).sign = -1
      have : cmpBytes [] (b :: bs) = (0 : Int) - (bs.length + 1) := by
        simp [cmpBytes, memcmp]
      rw [this]
      apply Int.sign_eq_neg_one_of_neg
      omega
  | cons a as ih =>
    intro ys
    cases ys with
    | nil =>
      show (cmpBytes (a :: as) []).sign = 1
      have : cmpBytes (a :: as) [] = ((as.length : Int) + 1) - 0 := by
        simp [cmpBytes, memcmp]
      rw [this]
      apply Int.sign_eq_one_of_pos
      omega
    | cons b bs =>
      have hmin : min (a :: as).length (b :: bs).length = min as.length bs.length + 1 := by
        simp [Nat.succ_min_succ]
      by_cases hab : a = b
      · subst hab
        have hlex : lexCompare (a :: as) (a :: bs) = lexCompare as bs := by
          simp [lexCompare]
        have hcmp : cmpBytes (a :: as) (a :: bs) = cmpBytes as bs := by
          unfold cmpBytes
          rw [hmin]
          simp only [List.take_succ_cons, memcmp, if_pos rfl, List.length_cons]
          push_cast
          by_cases hc : memcmp (as.take (min as.length bs.length))
              (bs.take (min as.length bs.length)) = 0
          · rw [if_pos hc, if_pos hc]
            ring
          · rw [if_neg hc, if_neg hc]
        rw [hlex, hcmp]
        exact ih bs
      · have hcmp : cmpBytes (a :: as) (b :: bs) = (a.toNat : Int) - (b.toNat : Int) := by
          unfold cmpBytes
          rw [hmin]
          simp only [List.take_succ_cons, memcmp, if_neg hab]
          rw [if_neg (by
            intro hz
            apply hab
            have : a.toNat = b.toNat := by omega
            exact UInt8.ext_iff.mpr this)]
        rw [hcmp]
        rcases Nat.lt_trichotomy a.toNat b.toNat with hlt | heq | hgt
        · have hlt' : a < b := hlt
          have hlex : lexCompare (a :: as) (b :: bs) = -1 := by
            simp [lexCompare, hlt']
          rw [hlex]
          apply Int.sign_eq_neg_one_of_neg
          omega
        · exact absurd (UInt8.ext_iff.mpr heq) hab
        · have hgt' : b < a := hgt
          have hnlt : ¬ a < b := Nat.lt_asymm hgt
          have hlex : lexCompare (a :: as) (b :: bs) = 1 := by
            simp [lexCompare, hgt', hnlt]
          rw [hlex]
          apply Int.sign_eq_one_of_pos
          omega

theorem sdscmp_tie {a b : Buffer}
    (hpre : (dataOf a).take (min a.len b.len) = (dataOf b).take (min a.len b.len)) :
    sdscmp a b = (a.len : Int) - (b.len : Int) := by
  unfold sdscmp
  simp only
  rw [hpre]
  simp [memcmp_self]

/-! ### Claim theorems -/

/-- Terminator condition of invariant I2 for an observable buffer: the byte at
offset `len` is the zero terminator, and the first `len` bytes all lie before
it inside the allocation. -/
def termOK (s : Buffer) : Prop := s.buf[s.len]? = some (0 : UInt8) ∧ s.len < s.buf.length

instance (s : Buffer) : Decidable (termOK s) := by unfold termOK; infer_instance

theorem termOK_of_wf {s : Buffer} (h : wf s) : termOK s := by
  have h1 := h.1
  exact ⟨h.2, by omega⟩

/-- Allocation-size condition of invariant I1: the payload allocation size
equals `len + free + 1`. -/
def allocOK (s : Buffer) : Prop := sdsAllocSize s = s.len + s.free + 1

instance (s : Buffer) : Decidable (allocOK s) := by unfold allocOK; infer_instance

/-- Claim C1 (amended): when the requested `addlen` exceeds the current
capacity, `sdsMakeRoomFor` computes `newlen = len + addlen` and allocates a
payload of `2 * newlen` bytes when `newlen < SDS_MAX_PREALLOC`, and
`newlen + SDS_MAX_PREALLOC` bytes otherwise (plus one terminator byte); the
resulting capacity equals the allocated payload size minus the buffer's
(unchanged) length `len` — not minus `newlen`, as the claim states. -/
theorem C1_growth (s : Buffer) (addlen : Nat) (h : wf s) (hx : s.free < addlen) :
    (sdsMakeRoomFor s addlen).len = s.len ∧
    sdsAllocSize (sdsMakeRoomFor s addlen) =
      (if s.len + addlen < SDS_MAX_PREALLOC then 2 * (s.len + addlen)
        else (s.len + addlen) + SDS_MAX_PREALLOC) + 1 ∧
    (sdsMakeRoomFor s addlen).free =
      (if s.len + addlen < SDS_MAX_PREALLOC then 2 * (s.len + addlen)
        else (s.len + addlen) + SDS_MAX_PREALLOC) - s.len := by
  have h1 := h.1
  unfold sdsMakeRoomFor sdsAllocSize
  rw [if_neg (by omega)]
  refine ⟨rfl, ?_, rfl⟩
  simp only [List.length_append, List.length_replicate]
  split <;> omega

/-- Claim C1, witness: `C1_growth` applied to the empty buffer and a request
of 5 bytes. -/
theorem C1_growth_witness :
    (sdsMakeRoomFor sdsempty 5).len = sdsempty.len ∧
    sdsAllocSize (sdsMakeRoomFor sdsempty 5) =
      (if sdsempty.len + 5 < SDS_MAX_PREALLOC then 2 * (sdsempty.len + 5)
        else (sdsempty.len + 5) + SDS_MAX_PREALLOC) + 1 ∧
    (sdsMakeRoomFor sdsempty 5).free =
      (if sdsempty.len + 5 < SDS_MAX_PREALLOC then 2 * (sdsempty.len + 5)
        else (sdsempty.len + 5) + SDS_MAX_PREALLOC) - sdsempty.len :=
  C1_growth sdsempty 5 (by decide) (by decide)

/-- Claim C1, counterexample to the claim as stated: growing the empty buffer
by 5 bytes gives `newlen = 5`, an allocated payload of `2 * 5 = 10` bytes
(11 with the terminator), and a resulting capacity of 10 — not
`10 - newlen = 5` (nor `11 - newlen = 6`), so the capacity is not the
allocated payload size minus `newLength`. -/
theorem C1_capacity_counterexample :
    sdsempty.free < 5 ∧
    sdsempty.len + 5 = 5 ∧
    (sdsMakeRoomFor sdsempty 5).free = 10 ∧
    sdsAllocSize (sdsMakeRoomFor sdsempty 5) = 11 ∧
    (sdsMakeRoomFor sdsempty 5).free ≠ 2 * (sdsempty.len + 5) - (sdsempty.len + 5) ∧
    (sdsMakeRoomFor sdsempty 5).free ≠
      sdsAllocSize (sdsMakeRoomFor sdsempty 5) - (sdsempty.len + 5) := by
  decide

/-- Claim C2: after `sdsMakeRoomFor` the capacity is at least the requested
`addlen`, and when the current capacity already satisfies the request the
buffer is returned unchanged (same length, capacity and content — no
reallocation). -/
theorem C2_ensure_capacity (s : Buffer) (addlen : Nat) :
    addlen ≤ (sdsMakeRoomFor s addlen).free ∧
    (addlen ≤ s.free → sdsMakeRoomFor s addlen = s) := by
  refine ⟨avail_sdsMakeRoomFor s addlen, fun hle => ?_⟩
  unfold sdsMakeRoomFor
  rw [if_pos hle]

/-- Claim C2, witness: a buffer that already has 10 spare bytes is returned
unchanged by a request for 3. -/
theorem C2_ensure_capacity_witness :
    sdsMakeRoomFor (sdsMakeRoomFor sdsempty 5) 3 = sdsMakeRoomFor sdsempty 5 :=
  (C2_ensure_capacity (sdsMakeRoomFor sdsempty 5) 3).2 (by decide)

/-- Claim C3: every mutating operation (construct, append, copy, trim,
setRange, growZeroFilled, clear, shrink) leaves the zero terminator at offset
`len`, with the first `len` bytes lying strictly before it in the
allocation. -/
theorem C3_terminator :
    (∀ init : List UInt8, termOK (sdsnewlen init)) ∧
    (∀ (s : Buffer) (t : List UInt8), wf s → termOK (sdscatlen s t)) ∧
    (∀ (s : Buffer) (t : List UInt8), wf s → termOK (sdscpylen s t)) ∧
    (∀ (s : Buffer) (cset : List UInt8), wf s → termOK (sdstrim s cset)) ∧
    (∀ (s : Buffer) (a b : Int), wf s → termOK (sdsrange s a b)) ∧
    (∀ (s : Buffer) (n : Nat), wf s → termOK (sdsgrowzero s n)) ∧
    (∀ s : Buffer, wf s → termOK (sdsclear s)) ∧
    (∀ s : Buffer, wf s → termOK (sdsRemoveFreeSpace s)) :=
  ⟨fun init => termOK_of_wf (wf_sdsnewlen init),
    fun _ t h => termOK_of_wf (wf_sdscatlen h t),
    fun _ t h => termOK_of_wf (wf_sdscpylen h t),
    fun _ cset h => termOK_of_wf (wf_sdstrim h cset),
    fun _ a b h => termOK_of_wf (wf_sdsrange h a b),
    fun _ n h => termOK_of_wf (wf_sdsgrowzero h n),
    fun _ h => termOK_of_wf (wf_sdsclear h),
    fun _ h => termOK_of_wf (wf_sdsRemoveFreeSpace h)⟩

/-- Claim C3, witness: appending one byte to a one-byte buffer keeps the
terminator at offset `len`. -/
theorem C3_terminator_witness : termOK (sdscatlen (sdsnewlen [82]) [101]) :=
  C3_terminator.2.1 (sdsnewlen [82]) [101] (by decide)

/-- Claim C4: the payload allocation size equals `len + free + 1` (the extra
byte being the terminator), and the equation is preserved by every operation
of the interface. -/
theorem C4_alloc_size :
    (∀ init : List UInt8, allocOK (sdsnewlen init)) ∧
    (∀ (s : Buffer) (addlen : Nat), wf s → allocOK (sdsMakeRoomFor s addlen)) ∧
    (∀ (s : Buffer) (t : List UInt8), wf s → allocOK (sdscatlen s t)) ∧
    (∀ (s : Buffer) (t : List UInt8), wf s → allocOK (sdscpylen s t)) ∧
    (∀ (s : Buffer) (cset : List UInt8), wf s → allocOK (sdstrim s cset)) ∧
    (∀ (s : Buffer) (a b : Int), wf s → allocOK (sdsrange s a b)) ∧
    (∀ (s : Buffer) (n : Nat), wf s → allocOK (sdsgrowzero s n)) ∧
    (∀ s : Buffer, wf s → allocOK (sdsclear s)) ∧
    (∀ s : Buffer, wf s → allocOK (sdsRemoveFreeSpace s)) :=
  ⟨fun init => (wf_sdsnewlen init).1,
    fun _ addlen h => (wf_sdsMakeRoomFor h addlen).1,
    fun _ t h => (wf_sdscatlen h t).1,
    fun _ t h => (wf_sdscpylen h t).1,
    fun _ cset h => (wf_sdstrim h cset).1,
    fun _ a b h => (wf_sdsrange h a b).1,
    fun _ n h => (wf_sdsgrowzero h n).1,
    fun _ h => (wf_sdsclear h).1,
    fun _ h => (wf_sdsRemoveFreeSpace h).1⟩

/-- Claim C4, witness: the allocation equation holds after appending one byte
to a one-byte buffer. -/
theorem C4_alloc_size_witness : allocOK (sdscatlen (sdsnewlen [82]) [101]) :=
  C4_alloc_size.2.2.1 (sdsnewlen [82]) [101] (by decide)

/-- Claim C5: appending `t` yields the old content followed by `t`, the length
grows by `t.length`, and the capacity is the post-`sdsMakeRoomFor` capacity
decreased by `t.length`; appending "Redis" then " is great" to the empty
buffer yields length 14 and content "Redis is great". -/
theorem C5_append (s : Buffer) (t : List UInt8) (h : wf s) :
    dataOf (sdscatlen s t) = dataOf s ++ t ∧
    (sdscatlen s t).len = s.len + t.length ∧
    (sdscatlen s t).free = (sdsMakeRoomFor s t.length).free - t.length ∧
    (sdscatlen sdsempty [82, 101, 100, 105, 115]).len = 5 ∧
    (sdscatlen (sdscatlen sdsempty [82, 101, 100, 105, 115])
      [32, 105, 115, 32, 103, 114, 101, 97, 116]).len = 14 ∧
    dataOf (sdscatlen (sdscatlen sdsempty [82, 101, 100, 105, 115])
      [32, 105, 115, 32, 103, 114, 101, 97, 116]) =
      [82, 101, 100, 105, 115, 32, 105, 115, 32, 103, 114, 101, 97, 116] :=
  ⟨dataOf_sdscatlen h t, len_sdscatlen s t, free_sdscatlen s t,
    by decide, by decide, by decide⟩

/-- Claim C5, witness: `C5_append` applied to the buffer "R" and the byte
"e". -/
theorem C5_append_witness :
    dataOf (sdscatlen (sdsnewlen [82]) [101]) = dataOf (sdsnewlen [82]) ++ [101] :=
  (C5_append (sdsnewlen [82]) [101] (by decide)).1

/-- Claim C6: `sdslen` returns the stored `len` field and `sdsavail` the
stored `free` field of the header, and neither inspects the payload bytes
(replacing `buf` leaves both results unchanged). -/
theorem C6_metadata (sh : sdshdr) :
    (intOK sh.len → 0 ≤ sh.len → sdslen sh = sh.len.toNat) ∧
    (intOK sh.free → 0 ≤ sh.free → sdsavail sh = sh.free.toNat) ∧
    (∀ b : List UInt8, sdslen { sh with buf := b } = sdslen sh ∧
      sdsavail { sh with buf := b } = sdsavail sh) := by
  refine ⟨fun hok hnn => ?_, fun hok hnn => ?_, fun b => ⟨rfl, rfl⟩⟩
  · unfold sdslen toSizeT
    unfold intOK at hok
    have : sh.len % 2 ^ 64 = sh.len := by omega
    rw [this]
  · unfold sdsavail toSizeT
    unfold intOK at hok
    have : sh.free % 2 ^ 64 = sh.free := by omega
    rw [this]

/-- Claim C6, witness: a header with `len = 5`, `free = 3`. -/
theorem C6_metadata_witness : sdslen ⟨5, 3, []⟩ = (5 : Int).toNat :=
  (C6_metadata ⟨5, 3, []⟩).1 (by decide) (by decide)

/-- Claim C7: `sdsrange` is total (never signals an error), preserves
well-formedness, and yields exactly the normalized clamped slice of the old
content shifted to offset 0; the result is empty when `start > end` after
normalization; `sdsrange s 0 (-1)` is the identity; on "Hello" the range
`[1, 3]` yields "ell". -/
theorem C7_setrange :
    (∀ (s : Buffer) (a b : Int), wf s →
      wf (sdsrange s a b) ∧
      dataOf (sdsrange s a b) =
        ((dataOf s).drop (rangeNorm s.len a b).1).take (rangeNorm s.len a b).2 ∧
      (sdsrange s a b).len ≤ s.len) ∧
    (∀ s : Buffer, wf s → sdsrange s 0 (-1) = s) ∧
    (∀ (s : Buffer) (a b : Int), 0 ≤ b → b < a → (sdsrange s a b).len = 0) ∧
    ((sdsrange (sdsnewlen [72, 101, 108, 108, 111]) 1 3).len = 3 ∧
      dataOf (sdsrange (sdsnewlen [72, 101, 108, 108, 111]) 1 3) = [101, 108, 108]) := by
  refine ⟨fun s a b h => ⟨wf_sdsrange h a b, dataOf_sdsrange h a b, len_sdsrange_le s a b⟩,
    fun s h => sdsrange_full h, fun s a b hb hab => ?_, by decide, by decide⟩
  unfold sdsrange
  split
  · assumption
  · simp only
    rw [rangeNorm_pos_empty s.len a b (by omega) hb hab]

/-- Claim C7, witness: the full range `[0, -1]` leaves the buffer "H"
unchanged. -/
theorem C7_setrange_witness : sdsrange (sdsnewlen [72]) 0 (-1) = sdsnewlen [72] :=
  C7_setrange.2.1 (sdsnewlen [72]) (by decide)

/-- Claim C8: `sdsgrowzero` is a no-op when the target does not exceed the
length, and otherwise extends the buffer to the target length, keeping the
old bytes and zero-filling the gap; growing "abc" to 10 gives length 10 with
bytes 3..9 zero. -/
theorem C8_growzero :
    (∀ (s : Buffer) (target : Nat), target ≤ s.len → sdsgrowzero s target = s) ∧
    (∀ (s : Buffer) (target : Nat), wf s → s.len < target →
      (sdsgrowzero s target).len = target ∧
      dataOf (sdsgrowzero s target) = dataOf s ++ List.replicate (target - s.len) 0) ∧
    ((sdsgrowzero (sdsnewlen [97, 98, 99]) 10).len = 10 ∧
      dataOf (sdsgrowzero (sdsnewlen [97, 98, 99]) 10) =
        [97, 98, 99, 0, 0, 0, 0, 0, 0, 0]) := by
  refine ⟨fun s target hle => ?_, fun s target h hgt =>
    ⟨len_sdsgrowzero hgt, dataOf_sdsgrowzero h hgt⟩, by decide, by decide⟩
  unfold sdsgrowzero
  rw [if_pos hle]

/-- Claim C8, witness: growing the 2-byte buffer to target 1 is a no-op. -/
theorem C8_growzero_witness : sdsgrowzero (sdsnewlen [1, 2]) 1 = sdsnewlen [1, 2] :=
  C8_growzero.1 (sdsnewlen [1, 2]) 1 (by decide)

/-- Claim C9: `sdscmp` realizes the lexicographic byte order on the contents
(sign-accurate against the reference order `lexCompare`); when the
`min`-length prefixes agree it returns the length difference, so the shorter
buffer sorts first and equal lengths compare equal; embedded zero bytes
participate ("a\x00b" < "a\x00c"); "abc" compares greater than "ab". -/
theorem C9_compare :
    (∀ a b : Buffer, wf a → wf b →
      (sdscmp a b).sign = lexCompare (dataOf a) (dataOf b)) ∧
    (∀ a b : Buffer,
      (dataOf a).take (min a.len b.len) = (dataOf b).take (min a.len b.len) →
      sdscmp a b = (a.len : Int) - (b.len : Int)) ∧
    sdscmp (sdsnewlen [97, 0, 98]) (sdsnewlen [97, 0, 99]) < 0 ∧
    sdscmp (sdsnewlen [97, 98, 99]) (sdsnewlen [97, 98]) > 0 := by
  refine ⟨fun a b ha hb => ?_, fun a b hpre => sdscmp_tie hpre, by decide, by decide⟩
  rw [sdscmp_eq_cmpBytes ha hb]
  exact cmpBytes_sign _ _

/-- Claim C9, witness: two equal one-byte buffers compare via the length
tie-break to 0. -/
theorem C9_compare_witness :
    sdscmp (sdsnewlen [5]) (sdsnewlen [5]) =
      ((sdsnewlen [5]).len : Int) - ((sdsnewlen [5]).len : Int) :=
  C9_compare.2.1 (sdsnewlen [5]) (sdsnewlen [5]) (by decide)

/-- Claim C10: with `len` and `free` stored as 32-bit signed `int` and the
queries returning 64-bit `size_t`, a representable (non-negative) length is
at most `2^31 - 1`, and a negative stored value converts to at least `2^63`
when returned; the public interface cannot represent strings longer than
`INT_MAX` bytes. -/
theorem C10_int_fields (sh : sdshdr) :
    (intOK sh.len → 0 ≤ sh.len → sdslen sh ≤ 2 ^ 31 - 1) ∧
    (intOK sh.len → sh.len < 0 → 2 ^ 63 ≤ sdslen sh) ∧
    (intOK sh.free → 0 ≤ sh.free → sdsavail sh ≤ 2 ^ 31 - 1) ∧
    (intOK sh.free → sh.free < 0 → 2 ^ 63 ≤ sdsavail sh) := by
  unfold intOK sdslen sdsavail toSizeT
  refine ⟨fun hok hnn => ?_, fun hok hneg => ?_, fun hok hnn => ?_, fun hok hneg => ?_⟩ <;>
    omega

/-- Claim C10, witness: a header with stored `len = -1` reads back as a
`size_t` of at least `2^63`. -/
theorem C10_int_fields_witness : 2 ^ 63 ≤ sdslen ⟨-1, 0, []⟩ :=
  (C10_int_fields ⟨-1, 0, []⟩).2.1 (by decide) (by decide)

end SDS
